import Mathlib

/-!
Shallow embedding of `coerce.go` (package coerce, github.com/SeeSpotRun/coerce),
which binds values held in a `map[string]interface \x7b\x7d` into the fields of a
Go struct, converting representations as needed.

Modelling conventions:
* Go strings are modelled as Lean `String` (a wrapper around `List Char`);
  byte-level slicing such as `s[:len(s)-1]` is modelled as dropping the last
  character, which coincides with the source for the ASCII inputs involved.
* Machine integers are modelled as `Int`/`Nat` with explicit reduction
  (`wrap64`, `truncInt`, `truncUint`) where Go conversions wrap.
* A Go runtime panic (an out-of-range index, or a method call on the invalid
  `reflect.Value` produced by `reflect.ValueOf(nil)`) is modelled by `none`
  in an `Option` result.
* `strconv.ParseFloat` is modelled exactly, as a rational `num/den`, for the
  plain decimal literals (optional sign, digits, optional point) that the
  repository's unit-suffix grammar feeds it; binary rounding of float64 is
  not modelled, and theorems evaluate this path only where the rational is
  exactly representable (e.g. 0.5 * 1024 = 512).
* Dynamic source values (`interface \x7b\x7d`) are restricted to the kinds the
  claims exercise: strings, concretely typed slices (such as `[]string`,
  whose `reflect` elements carry their concrete kind), and nil.
* Destination field types are restricted to the kinds the claims exercise:
  sized signed/unsigned integers (Go `int` is the 64-bit case), `string`,
  `bool`, and slices thereof.  The `time.Duration` and float destinations of
  `unmarshallString` are outside every claim and are not modelled.
-/

namespace Coerce

/-- Error value of the modelled `strconv` parsers (Go `strconv.NumError`):
the function name, the offending input, and whether the failure was
`invalid syntax` or `value out of range`. -/
inductive PErr where
  | synErr (fn s : String)
  | rngErr (fn s : String)
deriving DecidableEq

/-- Rendering of a `strconv.NumError` via its `Error()` method:
`strconv.<fn>: parsing <quoted input>: <cause>`. -/
def PErr.render : PErr → String
  | PErr.synErr fn s => "strconv." ++ fn ++ ": parsing \"" ++ s ++ "\": invalid syntax"
  | PErr.rngErr fn s => "strconv." ++ fn ++ ": parsing \"" ++ s ++ "\": value out of range"

/-- Numeric value of a digit string, as accumulated by the `strconv` scan
(most significant digit first). -/
def decVal (l : List Char) : Nat :=
  l.foldl (fun a c => a * 10 + (c.toNat - 48)) 0

/-- The base-10 digit scan of `strconv`: succeeds exactly on a non-empty
all-digit string. -/
def decNat? (l : List Char) : Option Nat :=
  if l ≠ [] ∧ l.all Char.isDigit = true then some (decVal l) else none

/-- Smallest value of a signed integer of the given bit width. -/
def intMin (bits : Nat) : Int := -(2 ^ (bits - 1))

/-- Largest value of a signed integer of the given bit width. -/
def intMax (bits : Nat) : Int := 2 ^ (bits - 1) - 1

/-- The leading-sign handling of `strconv.ParseInt`: an optional `+` or `-`
before the digits. -/
def stripSign (l : List Char) : Bool × List Char :=
  match l with
  | [] => (false, [])
  | a :: r => if a = '-' then (true, r) else if a = '+' then (false, r) else (false, a :: r)

/-- Model of `strconv.ParseInt(s, 10, bits)`: optional sign, non-empty digit
run, and a range check against the signed width.  (Go also returns a clamped
value together with a range error; every call site in the repository discards
the value when the error is non-nil, so the model returns `Except`.) -/
def parseIntGo (s : String) (bits : Nat) : Except PErr Int :=
  let sd := stripSign s.data
  match decNat? sd.2 with
  | none => Except.error (PErr.synErr "ParseInt" s)
  | some n =>
    let v : Int := if sd.1 then -(n : Int) else (n : Int)
    if v < intMin bits ∨ intMax bits < v then Except.error (PErr.rngErr "ParseInt" s)
    else Except.ok v

/-- Model of `strconv.ParseUint(s, 10, bits)`: no sign is permitted; a
non-empty digit run and a range check against the unsigned width. -/
def parseUintGo (s : String) (bits : Nat) : Except PErr Nat :=
  match decNat? s.data with
  | none => Except.error (PErr.synErr "ParseUint" s)
  | some n =>
    if (2 ^ bits - 1 : Nat) < n then Except.error (PErr.rngErr "ParseUint" s)
    else Except.ok n

/-- Model of `strconv.ParseFloat` on the plain decimal literals
(optional sign, digits, optional decimal point) reachable through
`getBytes`; the value is returned as the exact rational `num / den`. -/
def parseFloatGo (s : String) : Except PErr (Int × Nat) :=
  let sd := stripSign s.data
  let ip := sd.2.takeWhile Char.isDigit
  let rest := sd.2.dropWhile Char.isDigit
  let sgn : Int → Int := fun x => if sd.1 then -x else x
  match rest with
  | [] =>
    if ip = [] then Except.error (PErr.synErr "ParseFloat" s)
    else Except.ok (sgn (decVal ip), 1)
  | '.' :: fp =>
    if fp.all Char.isDigit = true ∧ (ip ≠ [] ∨ fp ≠ []) then
      Except.ok (sgn ((decVal ip : Int) * 10 ^ fp.length + (decVal fp : Int)), 10 ^ fp.length)
    else Except.error (PErr.synErr "ParseFloat" s)
  | _ => Except.error (PErr.synErr "ParseFloat" s)

/-- Two's-complement wrap of Go `int64` arithmetic. -/
def wrap64 (x : Int) : Int := (x + 2 ^ 63) % 2 ^ 64 - 2 ^ 63

/-- `reflect.Value.SetInt` stores through a typed pointer, so the `int64`
argument is reduced two's-complement style to the field's width. -/
def truncInt (bits : Nat) (v : Int) : Int :=
  (v + 2 ^ (bits - 1)) % 2 ^ bits - 2 ^ (bits - 1)

/-- The Go conversion `uint64(ival)` applied to an `int64` value. -/
def uint64Of (x : Int) : Nat := (x % (2 ^ 64 : Int)).toNat

/-- `reflect.Value.SetUint` stores through a typed pointer, reducing the
`uint64` argument modulo the field's width. -/
def truncUint (bits : Nat) (n : Nat) : Nat := n % 2 ^ bits

/-- The multiplier table of `getBytes`: `strings.ToUpper` on the final
character, then B/K/M/G/T. -/
def unitMult (c : Char) : Option Int :=
  if c.toUpper = 'B' then some 1
  else if c.toUpper = 'K' then some 1024
  else if c.toUpper = 'M' then some (1024 * 1024)
  else if c.toUpper = 'G' then some (1024 * 1024 * 1024)
  else if c.toUpper = 'T' then some (1024 * 1024 * 1024 * 1024)
  else none

/-- The recognized unit letters, upper and lower case. -/
def unitLetters : List Char := ['B', 'b', 'K', 'k', 'M', 'm', 'G', 'g', 'T', 't']

/-- Go `int64(fval * float64(mult))` for `fval = num / den`: truncation of the
product toward zero, modelled with exact rational arithmetic. -/
def truncQ (num : Int) (den : Nat) (m : Int) : Int :=
  let x := num * m
  if 0 ≤ x then ((x.toNat / den : Nat) : Int) else -(((-x).toNat / den : Nat) : Int)

/-- Model of `getBytes(s, err)`: reads `s[len(s)-1]` (a panic, `none`, when
`s` is empty), looks the letter up in the multiplier table (re-surfacing the
fallback error when it is not recognized), parses the prefix `s[:len(s)-1]`
as a 64-bit integer — Go's `ival * mult` wraps — and otherwise as a float,
truncating the product. -/
def getBytes (s : String) (fallback : PErr) : Option (Except PErr Int) :=
  match s.data.getLast? with
  | none => none
  | some c =>
    match unitMult c with
    | none => some (Except.error fallback)
    | some m =>
      let pfx : String := String.mk s.data.dropLast
      match parseIntGo pfx 64 with
      | Except.ok ival => some (Except.ok (wrap64 (ival * m)))
      | Except.error _ =>
        match parseFloatGo pfx with
        | Except.error e2 => some (Except.error e2)
        | Except.ok q => some (Except.ok (truncQ q.1 q.2 m))

/-- The signed-integer branch of `unmarshallString`: `strconv.ParseInt` at
the field's width, retried through `getBytes` on failure, stored with
`SetInt` (which truncates to the width). -/
def unmarshallStringInt (bits : Nat) (s : String) : Option (Except PErr Int) :=
  match parseIntGo s bits with
  | Except.ok ival => some (Except.ok (truncInt bits ival))
  | Except.error err =>
    match getBytes s err with
    | none => none
    | some (Except.error e) => some (Except.error e)
    | some (Except.ok ival) => some (Except.ok (truncInt bits ival))

/-- The unsigned-integer branch of `unmarshallString`: `strconv.ParseUint` at
the field's width, retried through `getBytes` on failure; the fallback result
passes through `uval = uint64(ival)` and is stored with `SetUint`. -/
def unmarshallStringUint (bits : Nat) (s : String) : Option (Except PErr Nat) :=
  match parseUintGo s bits with
  | Except.ok u => some (Except.ok (truncUint bits u))
  | Except.error err =>
    match getBytes s err with
    | none => none
    | some (Except.error e) => some (Except.error e)
    | some (Except.ok ival) => some (Except.ok (truncUint bits (uint64Of ival)))

/-- Dynamic source values (`interface \x7b\x7d` entries of the source map),
restricted to the kinds the claims exercise: a string, a concretely typed
slice (such as `[]string`, whose elements carry their concrete reflect
kind), or nil. -/
inductive Dyn where
  | str (s : String)
  | slice (xs : List Dyn)
  | nil

/-- Destination field types, restricted to the kinds the claims exercise.
`tInt 64` models both Go `int` and `int64` (both report `Bits() == 64`). -/
inductive GoType where
  | tInt (bits : Nat)
  | tUint (bits : Nat)
  | tString
  | tBool
  | tSlice (elem : GoType)
deriving DecidableEq

/-- Values held in destination fields. -/
inductive GoVal where
  | vInt (n : Int)
  | vUint (n : Nat)
  | vStr (s : String)
  | vBool (b : Bool)
  | vSlice (xs : List GoVal)

/-- `reflect.Zero(t)`: the zero value of a declared type. -/
def GoType.zero : GoType → GoVal
  | GoType.tInt _ => GoVal.vInt 0
  | GoType.tUint _ => GoVal.vUint 0
  | GoType.tString => GoVal.vStr ""
  | GoType.tBool => GoVal.vBool false
  | GoType.tSlice _ => GoVal.vSlice []

/-- Whether a declared type is a slice (`vf.Kind() == reflect.Slice`). -/
def GoType.isSlice : GoType → Bool
  | GoType.tSlice _ => true
  | _ => false

/-- Representative `%v` rendering of a declared type, used only inside error
messages. -/
def GoType.render : GoType → String
  | GoType.tInt b => "int" ++ toString b
  | GoType.tUint b => "uint" ++ toString b
  | GoType.tString => "string"
  | GoType.tBool => "bool"
  | GoType.tSlice e => "[]" ++ GoType.render e

/-- `%v` rendering of a dynamic value's type, used only inside error
messages. -/
def dynTypeName : Dyn → String
  | Dyn.str _ => "string"
  | Dyn.slice _ => "[]interface \x7b\x7d"
  | Dyn.nil => "<nil>"

mutual
/-- `fmt.Sprintf("%v", v)` on a dynamic value. -/
def sprintfV : Dyn → String
  | Dyn.str s => s
  | Dyn.nil => "<nil>"
  | Dyn.slice xs => "[" ++ sprintfList xs ++ "]"
/-- Space-separated `%v` rendering of slice elements. -/
def sprintfList : List Dyn → String
  | [] => ""
  | [d] => sprintfV d
  | d :: rest => sprintfV d ++ " " ++ sprintfList rest
end

/-- The typed dispatch of `unmarshallString` (its `time.Duration` and float
cases lie outside the modelled types): integer kinds parse the string, and
every other modelled kind falls to the closing
`don't know how to unmarshall string to %v\n` error. -/
def unmarshallStringT (tto : GoType) (s : String) : Option (Except String GoVal) :=
  match tto with
  | GoType.tInt bits =>
    match unmarshallStringInt bits s with
    | none => none
    | some (Except.ok n) => some (Except.ok (GoVal.vInt n))
    | some (Except.error e) => some (Except.error (PErr.render e))
  | GoType.tUint bits =>
    match unmarshallStringUint bits s with
    | none => none
    | some (Except.ok n) => some (Except.ok (GoVal.vUint n))
    | some (Except.error e) => some (Except.error (PErr.render e))
  | t => some (Except.error ("don't know how to unmarshall string to " ++ GoType.render t ++ "\n"))

/-- Model of `unmarshall(vto, vfrom)`.  `reflect.ValueOf(nil)` is the invalid
`Value`, on which `vfrom.Type()` panics (`none`).  A string source is
directly assignable exactly to a string destination; a string destination
otherwise takes the `fmt.Sprintf("%v", ...)` branch; a string source falls
to `unmarshallString`; a slice source (never assignable to the modelled
field types) falls to the closing `Don't know how to unmarshall` error. -/
def unmarshall (tto : GoType) (vfrom : Dyn) : Option (Except String GoVal) :=
  match vfrom with
  | Dyn.nil => none
  | Dyn.str s =>
    if tto = GoType.tString then some (Except.ok (GoVal.vStr s))
    else unmarshallStringT tto s
  | Dyn.slice xs =>
    if tto = GoType.tString then some (Except.ok (GoVal.vStr (sprintfV (Dyn.slice xs))))
    else some (Except.error ("Don't know how to unmarshall " ++ dynTypeName (Dyn.slice xs) ++
      " to " ++ GoType.render tto ++ "\n"))

/-- Model of `Var(pto, from)`: unmarshall one dynamic value into a
destination of the given declared type. -/
def Var (tto : GoType) (v : Dyn) : Option (Except String GoVal) := unmarshall tto v

/-- Model of `Uint64(from)`.  The Go source declares the result variable as
`u int64` (contradicting its own doc comment), so `Var` unmarshalls into a
signed 64-bit destination; on error the variable keeps its zero value. -/
def Uint64 (v : Dyn) : Option (Int × Option String) :=
  match unmarshall (GoType.tInt 64) v with
  | none => none
  | some (Except.ok (GoVal.vInt n)) => some (n, none)
  | some (Except.ok _) => some (0, none)
  | some (Except.error e) => some (0, some e)

/-- Substitution of the field name into a naming pattern: the
`fmt.Sprintf(pat, name)` rendering, modelled for patterns holding a single
`%s` verb (the repository's NamePattern contract). -/
def substPercentS : List Char → List Char → List Char
  | [], _ => []
  | '%' :: 's' :: rest, nm => nm ++ rest
  | c :: rest, nm => c :: substPercentS rest nm

/-- Render a candidate source-map key from a pattern and a field name. -/
def renderKey (pat nm : String) : String := String.mk (substPercentS pat.data nm.data)

/-- Go map lookup `from[key]` over the modelled source map (keys unique). -/
def mapLookup (key : String) : List (String × Dyn) → Option Dyn
  | [] => none
  | (k, v) :: rest => if k = key then some v else mapLookup key rest

/-- The pattern loop of `findVal`: try each format in order, returning the
first hit; missed keys accumulate into `tried` separated by `|`, and the
final error interpolates `tried[:len(tried)-2]` — which strips the trailing
separator AND the last character of the final attempted key. -/
def findValLoop (nm : String) (src : List (String × Dyn)) (tried : String) :
    List String → Except String Dyn
  | [] => Except.error ("Coerce: [" ++ String.mk tried.data.dropLast.dropLast ++ "] not found in map")
  | pat :: rest =>
    match mapLookup (renderKey pat nm) src with
    | some v => Except.ok v
    | none => findValLoop nm src (tried ++ renderKey pat nm ++ "|") rest

/-- Model of `findVal(name, from, formats)`: an empty format list defaults to
the identity pattern `%s`. -/
def findVal (nm : String) (src : List (String × Dyn)) (formats : List String) :
    Except String Dyn :=
  match formats with
  | [] => findValLoop nm src "" ["%s"]
  | _ => findValLoop nm src "" formats

/-- A destination struct field: its name, declared type, and the value it
holds before the bind call.  Settability is not modelled: the source's
`unsafe` workaround makes every field of an addressable struct writable. -/
structure Field where
  name : String
  type : GoType
  prior : GoVal

/-- The element result of a slot written by `unmarshall` in the slice loop:
the coerced value on success, the pre-allocated zero on failure. -/
def elemResult (et : GoType) (d : Dyn) : GoVal :=
  match unmarshall et d with
  | some (Except.ok v) => v
  | _ => GoType.zero et

/-- The error message, if any, contributed by one slice element. -/
def elemErr (et : GoType) (d : Dyn) : Option String :=
  match unmarshall et d with
  | some (Except.error e) => some e
  | _ => none

/-- The element loop of the slice-to-slice branch of `Struct`: index `j`
walks the remaining source elements, writing each success into the
pre-allocated destination `dst` and accumulating each failure's message;
a panic (`none`) aborts the call. -/
def sliceLoop (et : GoType) : List Dyn → Nat → List GoVal → Option (List GoVal × List String)
  | [], _, dst => some (dst, [])
  | d :: ds, j, dst =>
    match unmarshall et d with
    | none => none
    | some (Except.ok v) =>
      match sliceLoop et ds (j + 1) (dst.set j v) with
      | none => none
      | some r => some (r.1, r.2)
    | some (Except.error e) =>
      match sliceLoop et ds (j + 1) dst with
      | none => none
      | some r => some (r.1, e :: r.2)

/-- The slice-to-slice branch: `vf.Set(reflect.MakeSlice(vf.Type(), len, len))`
pre-allocates a fresh slice of the source's length whose slots hold the
element type's zero value, then the loop coerces each element in order. -/
def coerceSliceElems (et : GoType) (xs : List Dyn) : Option (List GoVal × List String) :=
  sliceLoop et xs 0 (List.replicate xs.length (GoType.zero et))

/-- Coercing one scalar source into a field through `unmarshall`: on failure
the destination slot is left untouched and the message is recorded. -/
def applyScalar (f : Field) (v : Dyn) : Option (GoVal × List String) :=
  match unmarshall f.type v with
  | none => none
  | some (Except.ok gv) => some (gv, [])
  | some (Except.error e) => some (f.prior, [e])

/-- Processing of a single field inside `Struct`'s loop: resolve the key
(a failure records the message and leaves the field at its prior value);
nil sets the zero value; a slice source dispatches on the field's kind
(slice-to-slice loop, single-element unwrap, or the multi-value error);
any other source goes through `unmarshall`.  The direct-assignment test of
the source (`reflect.TypeOf(vv).AssignableTo(f.Type)`) asks about the type
`reflect.Value` itself and so matches none of the modelled field types. -/
def bindField (src : List (String × Dyn)) (formats : List String) (f : Field) :
    Option (GoVal × List String) :=
  match findVal f.name src formats with
  | Except.error e => some (f.prior, [e])
  | Except.ok Dyn.nil => some (GoType.zero f.type, [])
  | Except.ok (Dyn.str s) => applyScalar f (Dyn.str s)
  | Except.ok (Dyn.slice xs) =>
    match f.type, xs with
    | GoType.tSlice et, _ =>
      (coerceSliceElems et xs).map (fun r => (GoVal.vSlice r.1, r.2))
    | _, [x] => applyScalar f x
    | _, _ => some (f.prior, ["Coerce: can't coerce " ++ f.name ++ " from multi-value slice"])

/-- The field loop of `Struct`: fields processed independently in declaration
order, new values and error messages collected; a panic aborts the call. -/
def processFields (src : List (String × Dyn)) (formats : List String) :
    List Field → Option (List GoVal × List String)
  | [] => some ([], [])
  | f :: rest =>
    match bindField src formats f with
    | none => none
    | some (v, ms) =>
      match processFields src formats rest with
      | none => none
      | some r => some (v :: r.1, ms ++ r.2)

/-- The error aggregation of `Struct`: `errstr += msg + "\n"` per message,
success when `errstr` stayed empty, otherwise a single error carrying
`errstr[:len(errstr)-1]` (the trailing newline stripped). -/
def aggregate (msgs : List String) : Option String :=
  let errstr := msgs.foldl (fun acc m => acc ++ m ++ "\n") ""
  if errstr = "" then none else some (String.mk errstr.data.dropLast)

/-- Model of `Struct(to, from, formats...)` on an addressable struct target:
the per-field results together with the aggregated error. -/
def Struct (fields : List Field) (src : List (String × Dyn)) (formats : List String) :
    Option (List GoVal × Option String) :=
  (processFields src formats fields).map (fun r => (r.1, aggregate r.2))

/-- The per-line concatenation claimed for the aggregated error text. -/
def joinLines : List String → String
  | [] => ""
  | [m] => m
  | m :: rest => m ++ "\n" ++ joinLines rest

/-! ## Helper lemmas: error aggregation (claim C4) -/

/-- Character list of the newline literal. -/
theorem data_newline : ("\n" : String).data = ['\n'] := rfl

/-- The accumulated `errstr` is the flattening of the per-message chunks
`msg ++ "\n"`. -/
theorem errstr_data (msgs : List String) : ∀ acc : String,
    (msgs.foldl (fun a m => a ++ m ++ "\n") acc).data =
      acc.data ++ (msgs.map (fun m => m.data ++ ['\n'])).flatten := by
  induction msgs with
  | nil => intro acc; simp
  | cons m rest ih =>
    intro acc
    simp only [List.foldl_cons, ih, List.map_cons, List.flatten_cons, String.data_append,
      data_newline, List.append_assoc]

/-- The flattened chunks are empty exactly when there were no messages. -/
theorem flatten_chunks_eq_nil (msgs : List String) :
    (msgs.map (fun m => m.data ++ ['\n'])).flatten = [] ↔ msgs = [] := by
  constructor
  · intro h
    cases msgs with
    | nil => rfl
    | cons m rest =>
      exfalso
      have hm := List.flatten_eq_nil_iff.mp h (m.data ++ ['\n']) (by simp)
      simp at hm
  · intro h; subst h; rfl

/-- A string is the empty literal exactly when its character list is empty. -/
theorem string_eq_empty_iff (s : String) : s = "" ↔ s.data = [] :=
  ⟨fun h => h ▸ rfl, String.ext⟩

/-- `errstr` stays empty exactly when no message was accumulated. -/
theorem errstr_eq_empty_iff (msgs : List String) :
    msgs.foldl (fun a m => a ++ m ++ "\n") "" = "" ↔ msgs = [] := by
  rw [string_eq_empty_iff, errstr_data msgs ""]
  show [] ++ _ = [] ↔ _
  rw [List.nil_append, flatten_chunks_eq_nil]

/-- Stripping the final newline from the flattened chunks yields the
newline-separated join of the messages. -/
theorem dropLast_flatten_chunks (msgs : List String) (h : msgs ≠ []) :
    ((msgs.map (fun m => m.data ++ ['\n'])).flatten).dropLast = (joinLines msgs).data := by
  induction msgs with
  | nil => exact absurd rfl h
  | cons m rest ih =>
    cases rest with
    | nil =>
      show ((m.data ++ ['\n']) ++ [].flatten).dropLast = (joinLines [m]).data
      simp [joinLines]
    | cons r t =>
      have hne : ((r :: t).map (fun m => m.data ++ ['\n'])).flatten ≠ [] := by
        rw [Ne, flatten_chunks_eq_nil]; simp
      show ((m.data ++ ['\n']) ++ ((r :: t).map (fun m => m.data ++ ['\n'])).flatten).dropLast
          = (joinLines (m :: r :: t)).data
      rw [List.dropLast_append_of_ne_nil _ hne, ih (by simp)]
      show _ = (m ++ "\n" ++ joinLines (r :: t)).data
      simp [String.data_append, data_newline, List.append_assoc]

/-- `Struct` aggregates to no error exactly when no message was accumulated. -/
theorem aggregate_none_iff (msgs : List String) : aggregate msgs = none ↔ msgs = [] := by
  unfold aggregate
  rw [← errstr_eq_empty_iff msgs]
  by_cases h : msgs.foldl (fun a m => a ++ m ++ "\n") "" = ""
  · simp [h]
  · simp [h]

/-- When messages were accumulated, the aggregated error text is their
newline-separated join. -/
theorem aggregate_eq_joinLines (msgs : List String) (h : msgs ≠ []) :
    aggregate msgs = some (joinLines msgs) := by
  unfold aggregate
  rw [if_neg (by rw [errstr_eq_empty_iff]; exact h)]
  congr 1
  apply String.ext
  show (msgs.foldl (fun a m => a ++ m ++ "\n") "").data.dropLast = (joinLines msgs).data
  rw [errstr_data msgs ""]
  show ([] ++ _).dropLast = _
  rw [List.nil_append, dropLast_flatten_chunks msgs h]

/-! ## Helper lemmas: pattern resolution (claim C8) -/

/-- The pattern loop returns the first hit, whatever keys were already
accumulated in `tried`. -/
theorem findValLoop_first_hit (nm : String) (src : List (String × Dyn)) (v : Dyn) :
    ∀ (fmts1 : List String) (tried : String) (p : String) (rest : List String),
    (∀ q ∈ fmts1, mapLookup (renderKey q nm) src = none) →
    mapLookup (renderKey p nm) src = some v →
    findValLoop nm src tried (fmts1 ++ p :: rest) = Except.ok v := by
  intro fmts1
  induction fmts1 with
  | nil =>
    intro tried p rest _ hhit
    simp only [List.nil_append, findValLoop, hhit]
  | cons q qs ih =>
    intro tried p rest hmiss hhit
    have hq : mapLookup (renderKey q nm) src = none := hmiss q (by simp)
    simp only [List.cons_append, findValLoop, hq]
    exact ih _ p rest (fun x hx => hmiss x (by simp [hx])) hhit

/-! ## Helper lemmas: the slice-to-slice element loop (claims C3 and C10) -/

/-- Setting the slot just past a prefix overwrites the head of the suffix. -/
theorem set_append_length {α : Type} (pre : List α) (a : α) (rest : List α) (v : α) :
    (pre ++ a :: rest).set pre.length v = pre ++ v :: rest := by
  induction pre with
  | nil => rfl
  | cons x xs ih =>
    show x :: ((xs ++ a :: rest).set xs.length v) = x :: (xs ++ v :: rest)
    rw [ih]

/-- Invariant of the element loop: with the slots before index `j` already
finalized (`pre`) and the remaining slots at the element zero value, the loop
finalizes each remaining slot to its element's result and collects the
element errors in order, provided no element panics. -/
theorem sliceLoop_spec (et : GoType) : ∀ (ds : List Dyn) (pre : List GoVal),
    (∀ d ∈ ds, (unmarshall et d).isSome = true) →
    sliceLoop et ds pre.length (pre ++ List.replicate ds.length (GoType.zero et)) =
      some (pre ++ ds.map (elemResult et), ds.filterMap (elemErr et)) := by
  intro ds
  induction ds with
  | nil =>
    intro pre _
    show sliceLoop et [] pre.length (pre ++ []) = _
    simp [sliceLoop]
  | cons d ds ih =>
    intro pre h
    have hd : (unmarshall et d).isSome = true := h d (by simp)
    rcases ho : unmarshall et d with _ | r
    · rw [ho] at hd; simp at hd
    rcases r with e | v
    · rw [List.length_cons, List.replicate_succ]
      have hre : pre ++ GoType.zero et :: List.replicate ds.length (GoType.zero et)
          = (pre ++ [GoType.zero et]) ++ List.replicate ds.length (GoType.zero et) := by simp
      simp only [sliceLoop, ho, hre]
      have hlen : pre.length + 1 = (pre ++ [GoType.zero et]).length := by simp
      rw [hlen, ih (pre ++ [GoType.zero et]) (fun x hx => h x (by simp [hx]))]
      simp [elemResult, elemErr, ho, List.filterMap_cons]
    · rw [List.length_cons, List.replicate_succ]
      have hset : (pre ++ GoType.zero et :: List.replicate ds.length (GoType.zero et)).set
            pre.length v = pre ++ v :: List.replicate ds.length (GoType.zero et) :=
        set_append_length pre (GoType.zero et) (List.replicate ds.length (GoType.zero et)) v
      simp only [sliceLoop, ho, hset]
      have hre : pre ++ v :: List.replicate ds.length (GoType.zero et)
          = (pre ++ [v]) ++ List.replicate ds.length (GoType.zero et) := by simp
      have hlen : pre.length + 1 = (pre ++ [v]).length := by simp
      rw [hre, hlen, ih (pre ++ [v]) (fun x hx => h x (by simp [hx]))]
      simp [elemResult, elemErr, ho, List.filterMap_cons]

/-- Closed form of the slice-to-slice branch when no element panics: the
result is the per-element map over the source, and the messages are the
element errors in order. -/
theorem coerceSliceElems_spec (et : GoType) (xs : List Dyn)
    (h : ∀ d ∈ xs, (unmarshall et d).isSome = true) :
    coerceSliceElems et xs = some (xs.map (elemResult et), xs.filterMap (elemErr et)) := by
  have hs := sliceLoop_spec et xs [] h
  simpa [coerceSliceElems] using hs

/-! ## Helper lemmas: the unit-suffix grammar (claim C1) -/

/-- The digit scan rejects any string ending in a non-digit. -/
theorem decNat?_concat_nondigit (l : List Char) (c : Char) (hc : c.isDigit = false) :
    decNat? (l ++ [c]) = none := by
  simp [decNat?, List.all_append, hc]

/-- `strconv.ParseInt` fails with a syntax error on any string whose final
character is neither a digit nor a sign. -/
theorem parseIntGo_push_nondigit (p : String) (c : Char) (bits : Nat)
    (hdig : c.isDigit = false) (hmin : c ≠ '-') (hplus : c ≠ '+') :
    parseIntGo (p.push c) bits = Except.error (PErr.synErr "ParseInt" (p.push c)) := by
  obtain ⟨l⟩ := p
  show parseIntGo (String.mk (l ++ [c])) bits
      = Except.error (PErr.synErr "ParseInt" (String.mk (l ++ [c])))
  unfold parseIntGo
  cases l with
  | nil =>
    show (match decNat? (stripSign ([] ++ [c])).2 with
      | none => Except.error (PErr.synErr "ParseInt" (String.mk ([] ++ [c])))
      | some n => _) = _
    simp [stripSign, hmin, hplus, decNat?, hdig]
  | cons a t =>
    by_cases ha : a = '-'
    · subst ha
      show (match decNat? (stripSign ('-' :: (t ++ [c]))).2 with
        | none => _ | some n => _) = _
      simp [stripSign, decNat?_concat_nondigit t c hdig]
    · by_cases hb : a = '+'
      · subst hb
        show (match decNat? (stripSign ('+' :: (t ++ [c]))).2 with
          | none => _ | some n => _) = _
        simp [stripSign, decNat?_concat_nondigit t c hdig]
      · show (match decNat? (stripSign (a :: (t ++ [c]))).2 with
          | none => _ | some n => _) = _
        simp only [stripSign, if_neg ha, if_neg hb]
        rw [show a :: (t ++ [c]) = (a :: t) ++ [c] from rfl,
          decNat?_concat_nondigit (a :: t) c hdig]

/-- `strconv.ParseUint` fails with a syntax error on any string whose final
character is not a digit. -/
theorem parseUintGo_push_nondigit (p : String) (c : Char) (bits : Nat)
    (hdig : c.isDigit = false) :
    parseUintGo (p.push c) bits = Except.error (PErr.synErr "ParseUint" (p.push c)) := by
  obtain ⟨l⟩ := p
  show parseUintGo (String.mk (l ++ [c])) bits
      = Except.error (PErr.synErr "ParseUint" (String.mk (l ++ [c])))
  unfold parseUintGo
  rw [show (String.mk (l ++ [c])).data = l ++ [c] from rfl,
    decNat?_concat_nondigit l c hdig]

/-- `getBytes` on a recognized unit letter with an integer prefix: the prefix
is parsed at 64 bits and the multiplied result wraps as Go `int64`. -/
theorem getBytes_push (p : String) (c : Char) (m n : Int) (e : PErr)
    (hm : unitMult c = some m) (hp : parseIntGo p 64 = Except.ok n) :
    getBytes (p.push c) e = some (Except.ok (wrap64 (n * m))) := by
  obtain ⟨l⟩ := p
  show getBytes (String.mk (l ++ [c])) e = _
  unfold getBytes
  rw [show (String.mk (l ++ [c])).data = l ++ [c] from rfl]
  rw [List.getLast?_concat, List.dropLast_concat]
  show (match unitMult c with
    | none => some (Except.error e)
    | some m => _) = _
  rw [hm]
  show (match parseIntGo (String.mk l) 64 with
    | Except.ok ival => some (Except.ok (wrap64 (ival * m)))
    | Except.error _ => _) = _
  rw [hp]

/-- The `int64` wrap is the identity on the 64-bit signed range. -/
theorem wrap64_eq_self (x : Int) (h1 : -(2 ^ 63) ≤ x) (h2 : x ≤ 2 ^ 63 - 1) :
    wrap64 x = x := by
  unfold wrap64
  have e63 : (2 : Int) ^ 63 = 9223372036854775808 := by norm_num
  have e64 : (2 : Int) ^ 64 = 18446744073709551616 := by norm_num
  rw [Int.emod_eq_of_lt (by omega) (by omega)]
  omega

/-- `SetInt` truncation is the identity on values within the field's
signed range. -/
theorem truncInt_eq_self (bits : Nat) (v : Int) (hb : 0 < bits)
    (h1 : intMin bits ≤ v) (h2 : v ≤ intMax bits) : truncInt bits v = v := by
  unfold truncInt
  unfold intMin at h1
  unfold intMax at h2
  obtain ⟨k, rfl⟩ : ∃ k, bits = k + 1 := ⟨bits - 1, by omega⟩
  simp only [Nat.add_sub_cancel] at *
  have hp : (2 : Int) ^ (k + 1) = 2 ^ k * 2 := by ring
  have hpos : (0 : Int) < 2 ^ k := by positivity
  rw [Int.emod_eq_of_lt (by omega) (by omega)]
  omega

/-- Wrapping does not change the residue modulo 2^64. -/
theorem wrap64_emod (x : Int) : wrap64 x % 2 ^ 64 = x % 2 ^ 64 := by
  unfold wrap64
  rw [Int.sub_emod, Int.emod_emod_of_dvd _ dvd_rfl, ← Int.sub_emod, Int.add_sub_cancel]

/-- The `uint64` conversion followed by `SetUint` truncation is the identity
on values within the field's unsigned range. -/
theorem uint_roundtrip (x : Int) (bits : Nat) (hb : bits ≤ 64)
    (h0 : 0 ≤ x) (hlt : x < 2 ^ bits) :
    ((truncUint bits (uint64Of (wrap64 x))) : Int) = x := by
  have hb64 : (2 : Int) ^ bits ≤ 2 ^ 64 := pow_le_pow_right₀ (by norm_num) hb
  have hx64 : x % 2 ^ 64 = x := Int.emod_eq_of_lt h0 (by omega)
  unfold truncUint uint64Of
  rw [wrap64_emod, hx64]
  have hnat : x.toNat < 2 ^ bits := by
    have hcast : ((x.toNat : Int)) = x := Int.toNat_of_nonneg h0
    have : ((x.toNat : Int)) < ((2 ^ bits : Nat) : Int) := by
      rw [hcast, Nat.cast_pow]
      push_cast
      exact hlt
    exact_mod_cast this
  rw [Nat.mod_eq_of_lt hnat]
  exact Int.toNat_of_nonneg h0

/-! ## The claims -/

/-- Claim C1, counterexample: the claim asserts that a unit-suffixed text
whose value exceeds the destination width fails with Overflow, but
`1 * 1024` lies outside the 8-bit signed range while coercing the text
`1K` into an 8-bit destination succeeds, storing the truncated value 0
(and likewise for the unsigned path). -/
theorem c1_counterexample :
    intMax 8 < 1 * 1024 ∧
    unmarshallStringInt 8 "1K" = some (Except.ok 0) ∧
    unmarshallStringUint 8 "1K" = some (Except.ok 0) :=
  ⟨by decide, rfl, rfl⟩

/-- Claim C1, amended: for every recognized unit letter and every decimal
text parsing to the 64-bit integer n, coercing the suffixed text into a
signed or unsigned destination of width up to 64 always succeeds, storing
n times the unit factor reduced to the destination width (two's-complement
wrap for signed, modulo 2^bits for unsigned); in particular it stores
exactly n times the factor whenever that value fits the width.  No
Overflow error is reported on this path. -/
theorem c1_unit_suffix_amended (p : String) (n : Int) (c : Char) (bits : Nat)
    (hc : c ∈ unitLetters) (hp : parseIntGo p 64 = Except.ok n)
    (hb1 : 0 < bits) (hb2 : bits ≤ 64) :
    ∀ m : Int, unitMult c = some m →
      (unmarshallStringInt bits (p.push c) = some (Except.ok (truncInt bits (wrap64 (n * m)))) ∧
        (intMin bits ≤ n * m ∧ n * m ≤ intMax bits →
          truncInt bits (wrap64 (n * m)) = n * m)) ∧
      (unmarshallStringUint bits (p.push c) =
          some (Except.ok (truncUint bits (uint64Of (wrap64 (n * m))))) ∧
        (0 ≤ n * m ∧ n * m < 2 ^ bits →
          (truncUint bits (uint64Of (wrap64 (n * m))) : Int) = n * m)) := by
  intro m hm
  have hfacts : c.isDigit = false ∧ c ≠ '-' ∧ c ≠ '+' := by
    fin_cases hc <;> exact ⟨rfl, by decide, by decide⟩
  obtain ⟨hdig, hmin, hplus⟩ := hfacts
  have hpi := parseIntGo_push_nondigit p c bits hdig hmin hplus
  have hpu := parseUintGo_push_nondigit p c bits hdig
  have hgb1 := getBytes_push p c m n (PErr.synErr "ParseInt" (p.push c)) hm hp
  have hgb2 := getBytes_push p c m n (PErr.synErr "ParseUint" (p.push c)) hm hp
  have hrange : intMin bits ≤ n * m ∧ n * m ≤ intMax bits →
      truncInt bits (wrap64 (n * m)) = n * m := by
    rintro ⟨hlo, hhi⟩
    have hmono : (2 : Int) ^ (bits - 1) ≤ 2 ^ 63 :=
      pow_le_pow_right₀ (by norm_num) (by omega)
    have hw : wrap64 (n * m) = n * m := by
      apply wrap64_eq_self
      · have := hlo; unfold intMin at this; omega
      · have := hhi; unfold intMax at this; omega
    rw [hw]
    exact truncInt_eq_self bits (n * m) hb1 hlo hhi
  refine ⟨⟨?_, hrange⟩, ⟨?_, fun h => uint_roundtrip (n * m) bits hb2 h.1 h.2⟩⟩
  · simp only [unmarshallStringInt, hpi, hgb1]
  · simp only [unmarshallStringUint, hpu, hgb2]

/-- Claim C1, witness: the text `2M` coerced into 64-bit signed and
unsigned destinations yields 2 * 2^20 = 2097152. -/
theorem c1_unit_suffix_witness :
    ('M' ∈ unitLetters ∧ parseIntGo "2" 64 = Except.ok 2 ∧
      (0 : Nat) < 64 ∧ (64 : Nat) ≤ 64 ∧ unitMult 'M' = some 1048576) ∧
    unmarshallStringInt 64 ("2".push 'M') = some (Except.ok 2097152) ∧
    unmarshallStringUint 64 ("2".push 'M') = some (Except.ok 2097152) := by
  have h := c1_unit_suffix_amended "2" 2 'M' 64 (by decide) rfl (by decide) (by decide)
    1048576 rfl
  refine ⟨⟨by decide, rfl, by decide, by decide, rfl⟩, ?_, ?_⟩
  · rw [h.1.1]; rfl
  · rw [h.2.1]; rfl

/-- Claim C2 (code bug): on the spec's own scenario — empty source, field
`Name`, no patterns — the recorded NotFound message is
`Coerce: [Nam] not found in map`: the slice `tried[:len(tried)-2]` chops
the separator AND the final character of the last attempted key, so the
message does not contain the attempted key `Name` in full; the field does
keep its prior value. -/
theorem c2_notfound_truncated_key :
    Struct [⟨"Name", GoType.tString, GoVal.vStr "prior"⟩] [] [] =
      some ([GoVal.vStr "prior"], some "Coerce: [Nam] not found in map") := rfl

/-- Claim C3: sequence-to-sequence coercion (when no element panics)
preserves the source length, and every element whose coercion succeeds
lands at its own index; in particular the strings 5, 12, 0.5k coerce to
the integers 5, 12, 512 in order with no error. -/
theorem c3_sequence_coercion (et : GoType) (xs : List Dyn)
    (hnp : ∀ d ∈ xs, (unmarshall et d).isSome = true) :
    (∀ vs ms, coerceSliceElems et xs = some (vs, ms) →
      vs.length = xs.length ∧
      ∀ (i : Nat) (d : Dyn) (v : GoVal), xs[i]? = some d →
        unmarshall et d = some (Except.ok v) → vs[i]? = some v) ∧
    coerceSliceElems (GoType.tInt 64) [Dyn.str "5", Dyn.str "12", Dyn.str "0.5k"] =
      some ([GoVal.vInt 5, GoVal.vInt 12, GoVal.vInt 512], []) := by
  refine ⟨?_, rfl⟩
  intro vs ms hc
  rw [coerceSliceElems_spec et xs hnp] at hc
  rw [Option.some_inj] at hc
  have hvs : vs = xs.map (elemResult et) := (congrArg Prod.fst hc).symm
  subst hvs
  refine ⟨by simp, ?_⟩
  intro i d v hget hok
  rw [List.getElem?_map, hget]
  show some (elemResult et d) = some v
  simp [elemResult, hok]

/-- Claim C3, witness: applied at the spec's example sequence. -/
theorem c3_sequence_coercion_witness :
    (∀ d ∈ [Dyn.str "5", Dyn.str "12", Dyn.str "0.5k"],
      (unmarshall (GoType.tInt 64) d).isSome = true) ∧
    ((∀ vs ms,
        coerceSliceElems (GoType.tInt 64) [Dyn.str "5", Dyn.str "12", Dyn.str "0.5k"] =
          some (vs, ms) →
        vs.length = [Dyn.str "5", Dyn.str "12", Dyn.str "0.5k"].length ∧
        ∀ (i : Nat) (d : Dyn) (v : GoVal),
          [Dyn.str "5", Dyn.str "12", Dyn.str "0.5k"][i]? = some d →
          unmarshall (GoType.tInt 64) d = some (Except.ok v) → vs[i]? = some v) ∧
      coerceSliceElems (GoType.tInt 64) [Dyn.str "5", Dyn.str "12", Dyn.str "0.5k"] =
        some ([GoVal.vInt 5, GoVal.vInt 12, GoVal.vInt 512], [])) :=
  ⟨by decide,
    c3_sequence_coercion (GoType.tInt 64) [Dyn.str "5", Dyn.str "12", Dyn.str "0.5k"]
      (by decide)⟩

/-- Claim C4: a bind call succeeds exactly when no per-field message was
accumulated; otherwise it returns one error whose text joins all
accumulated messages, each on its own line, so every independent field
failure is present in the result. -/
theorem c4_error_aggregation (fields : List Field) (src : List (String × Dyn))
    (formats : List String) (vals : List GoVal) (msgs : List String)
    (h : processFields src formats fields = some (vals, msgs)) :
    Struct fields src formats = some (vals, aggregate msgs) ∧
    (aggregate msgs = none ↔ msgs = []) ∧
    (msgs ≠ [] → aggregate msgs = some (joinLines msgs)) := by
  refine ⟨?_, aggregate_none_iff msgs, aggregate_eq_joinLines msgs⟩
  unfold Struct
  rw [h]
  rfl

/-- Claim C4, witness: two independently missing fields both surface in the
single aggregated error, one message per line. -/
theorem c4_error_aggregation_witness :
    processFields [] [] [⟨"Alpha", GoType.tString, GoVal.vStr "a0"⟩,
        ⟨"Beta", GoType.tString, GoVal.vStr "b0"⟩] =
      some ([GoVal.vStr "a0", GoVal.vStr "b0"],
        ["Coerce: [Alph] not found in map", "Coerce: [Bet] not found in map"]) ∧
    Struct [⟨"Alpha", GoType.tString, GoVal.vStr "a0"⟩,
        ⟨"Beta", GoType.tString, GoVal.vStr "b0"⟩] [] [] =
      some ([GoVal.vStr "a0", GoVal.vStr "b0"],
        some "Coerce: [Alph] not found in map\nCoerce: [Bet] not found in map") := by
  refine ⟨rfl, ?_⟩
  have h := c4_error_aggregation [⟨"Alpha", GoType.tString, GoVal.vStr "a0"⟩,
      ⟨"Beta", GoType.tString, GoVal.vStr "b0"⟩] [] []
    [GoVal.vStr "a0", GoVal.vStr "b0"]
    ["Coerce: [Alph] not found in map", "Coerce: [Bet] not found in map"] rfl
  rw [h.1, h.2.2 (by simp)]
  rfl

/-- Claim C5 (code bug): the Go source declares `Uint64`'s result as
`u int64`, so the maximal unsigned 64-bit value — which its own doc
comment promises to return — fails with a ParseInt range error and the
zero value, instead of returning 18446744073709551615 with no error. -/
theorem c5_uint64_int64_result :
    Uint64 (Dyn.str "18446744073709551615") =
      some (0, some "strconv.ParseInt: parsing \"18446744073709551615\": value out of range") :=
  rfl

/-- Claim C6, counterexample: a two-element sequence resolved for the scalar
string field `X` is rejected with the fixed message
`Coerce: can't coerce X from multi-value slice`, which contains no digit at
all and therefore does not name the source length 2, contrary to the
claim. -/
theorem c6_cardinality_counterexample :
    bindField [("X", Dyn.slice [Dyn.str "a", Dyn.str "b"])] []
        ⟨"X", GoType.tString, GoVal.vStr "prev"⟩ =
      some (GoVal.vStr "prev", ["Coerce: can't coerce X from multi-value slice"]) ∧
    ("Coerce: can't coerce X from multi-value slice").data.all (fun c => !c.isDigit) = true :=
  ⟨rfl, by decide⟩

/-- Claim C6, amended: a one-element sequence resolved for a scalar field
unwraps its sole element into the scalar coercion path; a zero- or
multi-element sequence fails with a message naming the field (but not the
source length), leaving the field at its prior value. -/
theorem c6_cardinality_amended (f : Field) (src : List (String × Dyn))
    (formats : List String) (xs : List Dyn)
    (hfind : findVal f.name src formats = Except.ok (Dyn.slice xs))
    (hscal : f.type.isSlice = false) :
    (∀ x, xs = [x] → bindField src formats f = applyScalar f x) ∧
    (xs.length ≠ 1 → bindField src formats f =
      some (f.prior, ["Coerce: can't coerce " ++ f.name ++ " from multi-value slice"])) := by
  obtain ⟨nm, ty, pr⟩ := f
  simp only [bindField, hfind]
  cases ty
  case tSlice et => simp [GoType.isSlice] at hscal
  all_goals refine ⟨fun x hx => by subst hx; rfl, fun hlen => ?_⟩
  all_goals rcases xs with _ | ⟨x, _ | ⟨y, t⟩⟩
  all_goals first
    | rfl
    | exact absurd rfl hlen

/-- Claim C6, witness: the spec's scenario 6 (two strings into a scalar
string field) yields the fixed message and keeps the prior value, while a
one-element sequence unwraps into an integer field. -/
theorem c6_cardinality_witness :
    (findVal "X" [("X", Dyn.slice [Dyn.str "a", Dyn.str "b"])] []
        = Except.ok (Dyn.slice [Dyn.str "a", Dyn.str "b"]) ∧
      GoType.isSlice GoType.tString = false ∧
      ([Dyn.str "a", Dyn.str "b"] : List Dyn).length ≠ 1) ∧
    bindField [("X", Dyn.slice [Dyn.str "a", Dyn.str "b"])] []
        ⟨"X", GoType.tString, GoVal.vStr "prev"⟩ =
      some (GoVal.vStr "prev", ["Coerce: can't coerce X from multi-value slice"]) ∧
    bindField [("N", Dyn.slice [Dyn.str "7"])] [] ⟨"N", GoType.tInt 64, GoVal.vInt 0⟩ =
      some (GoVal.vInt 7, []) := by
  refine ⟨⟨rfl, rfl, by decide⟩, ?_, ?_⟩
  · exact (c6_cardinality_amended ⟨"X", GoType.tString, GoVal.vStr "prev"⟩
      [("X", Dyn.slice [Dyn.str "a", Dyn.str "b"])] [] [Dyn.str "a", Dyn.str "b"]
      rfl rfl).2 (by decide)
  · have h := (c6_cardinality_amended ⟨"N", GoType.tInt 64, GoVal.vInt 0⟩
      [("N", Dyn.slice [Dyn.str "7"])] [] [Dyn.str "7"] rfl rfl).1 (Dyn.str "7") rfl
    rw [h]
    rfl

/-- Claim C7: a field whose resolved source value is nil is set to its
declared type's zero value and contributes no error message. -/
theorem c7_nil_sets_zero (f : Field) (src : List (String × Dyn)) (formats : List String)
    (hfind : findVal f.name src formats = Except.ok Dyn.nil) :
    bindField src formats f = some (GoType.zero f.type, []) := by
  simp only [bindField, hfind]

/-- Claim C7, witness: the spec's scenario 4 — a nil value for a bool field
resets it to false with no error. -/
theorem c7_nil_sets_zero_witness :
    findVal "Flag" [("Flag", Dyn.nil)] [] = Except.ok Dyn.nil ∧
    bindField [("Flag", Dyn.nil)] [] ⟨"Flag", GoType.tBool, GoVal.vBool true⟩ =
      some (GoVal.vBool false, []) :=
  ⟨rfl, c7_nil_sets_zero ⟨"Flag", GoType.tBool, GoVal.vBool true⟩ [("Flag", Dyn.nil)] [] rfl⟩

/-- Claim C8: name-pattern resolution tries the supplied patterns in order
and returns the value stored under the first rendered key present in the
source mapping. -/
theorem c8_pattern_precedence (nm : String) (src : List (String × Dyn))
    (fmts1 : List String) (p : String) (fmts2 : List String) (v : Dyn)
    (hmiss : ∀ q ∈ fmts1, mapLookup (renderKey q nm) src = none)
    (hhit : mapLookup (renderKey p nm) src = some v) :
    findVal nm src (fmts1 ++ p :: fmts2) = Except.ok v := by
  cases fmts1 with
  | nil => exact findValLoop_first_hit nm src v [] "" p fmts2 hmiss hhit
  | cons a l =>
    show findValLoop nm src "" ((a :: l) ++ p :: fmts2) = Except.ok v
    exact findValLoop_first_hit nm src v (a :: l) "" p fmts2 hmiss hhit

/-- Claim C8, witness: with patterns `--%s` then `-%s` and both keys
present, field `foo` resolves to the value stored under `--foo`. -/
theorem c8_pattern_precedence_witness :
    (∀ q ∈ ([] : List String),
        mapLookup (renderKey q "foo") [("--foo", Dyn.str "A"), ("-foo", Dyn.str "B")] = none) ∧
    mapLookup (renderKey "--%s" "foo") [("--foo", Dyn.str "A"), ("-foo", Dyn.str "B")] =
      some (Dyn.str "A") ∧
    findVal "foo" [("--foo", Dyn.str "A"), ("-foo", Dyn.str "B")] ["--%s", "-%s"] =
      Except.ok (Dyn.str "A") :=
  ⟨by simp, rfl,
    c8_pattern_precedence "foo" [("--foo", Dyn.str "A"), ("-foo", Dyn.str "B")] [] "--%s"
      ["-%s"] (Dyn.str "A") (by simp) rfl⟩

/-- Claim C9 (code bug): coercing the empty string into an integer
destination is not total — `getBytes` evaluates `s[len(s)-1]` on its empty
input and panics with an index out of range (the `none` result), reachable
from the string-to-integer coercion path. -/
theorem c9_empty_string_panic :
    getBytes "" (PErr.synErr "ParseInt" "") = none ∧
    unmarshallStringInt 64 "" = none ∧
    unmarshall (GoType.tInt 64) (Dyn.str "") = none :=
  ⟨rfl, rfl, rfl⟩

/-- Claim C10: when bind coerces a sequence source into a sequence field,
the prior contents are discarded unconditionally (binding is independent of
the prior value), the field receives a fresh sequence of the source's
length, and every element whose coercion fails is left at the element
type's zero value. -/
theorem c10_slice_replacement (f : Field) (src : List (String × Dyn))
    (formats : List String) (xs : List Dyn) (et : GoType)
    (htype : f.type = GoType.tSlice et)
    (hfind : findVal f.name src formats = Except.ok (Dyn.slice xs))
    (hnp : ∀ d ∈ xs, (unmarshall et d).isSome = true) :
    (∀ p, bindField src formats { f with prior := p } = bindField src formats f) ∧
    bindField src formats f =
      some (GoVal.vSlice (xs.map (elemResult et)), xs.filterMap (elemErr et)) ∧
    (xs.map (elemResult et)).length = xs.length ∧
    (∀ d ∈ xs, (∃ e, unmarshall et d = some (Except.error e)) →
      elemResult et d = GoType.zero et) := by
  obtain ⟨nm, ty, pr⟩ := f
  simp only at htype
  subst htype
  refine ⟨?_, ?_, by simp, ?_⟩
  · intro p
    simp only [bindField, hfind]
  · simp only [bindField, hfind]
    rw [coerceSliceElems_spec et xs hnp]
    rfl
  · rintro d _ ⟨e, he⟩
    simp [elemResult, he]

/-- Claim C10, witness: a slice field with prior contents is replaced by a
fresh slice of the source length; the element whose coercion fails stays at
zero, and changing the prior value does not change the result. -/
theorem c10_slice_replacement_witness :
    ((⟨"L", GoType.tSlice (GoType.tInt 64), GoVal.vSlice [GoVal.vInt 9]⟩ : Field).type
        = GoType.tSlice (GoType.tInt 64)) ∧
    findVal "L" [("L", Dyn.slice [Dyn.str "x", Dyn.str "3"])] []
        = Except.ok (Dyn.slice [Dyn.str "x", Dyn.str "3"]) ∧
    bindField [("L", Dyn.slice [Dyn.str "x", Dyn.str "3"])] []
        ⟨"L", GoType.tSlice (GoType.tInt 64), GoVal.vSlice [GoVal.vInt 9]⟩ =
      some (GoVal.vSlice [GoVal.vInt 0, GoVal.vInt 3],
        ["strconv.ParseInt: parsing \"x\": invalid syntax"]) ∧
    bindField [("L", Dyn.slice [Dyn.str "x", Dyn.str "3"])] []
        ⟨"L", GoType.tSlice (GoType.tInt 64), GoVal.vStr "other prior"⟩ =
      bindField [("L", Dyn.slice [Dyn.str "x", Dyn.str "3"])] []
        ⟨"L", GoType.tSlice (GoType.tInt 64), GoVal.vSlice [GoVal.vInt 9]⟩ := by
  have h := c10_slice_replacement
    ⟨"L", GoType.tSlice (GoType.tInt 64), GoVal.vSlice [GoVal.vInt 9]⟩
    [("L", Dyn.slice [Dyn.str "x", Dyn.str "3"])] []
    [Dyn.str "x", Dyn.str "3"] (GoType.tInt 64) rfl rfl (by decide)
  refine ⟨rfl, rfl, ?_, h.1 (GoVal.vStr "other prior")⟩
  rw [h.2.1]
  rfl

end Coerce
